import Mathlib

/-!
Verification development for the `dirgo` disk-usage analyzer.

This file gives a shallow embedding of the program's core: the directory
scanner (`scanDirectory`, `dirSizeRecursive`), the line counter
(`countLines`, `isBinaryContent`), the bounded LRU scan cache
(`lruCache` with `Get`/`Put`/`Delete`/`Len`), its disk persistence
(`SaveToDisk`/`LoadFromDisk`), and the smart-refresh gate
(`smartRefreshCmd`).

Modelling conventions:
- The filesystem seen by one scan is a value of the inductive `FSTree`
  (a snapshot).  Fallible syscalls are `Option`: `os.Stat`/`DirEntry.Info`
  results are `Option FileInfo`, `os.ReadDir` results are
  `Option (List FSTree)` (`none` = the call returned an error).
- Go `int64`/`int` are modelled as `Int`/`Nat`; sizes and counts stay far
  below 2^63 so wrap-around is not modelled.
- Go `float64` percentages are modelled as exact rationals `ℚ`; the spec's
  properties about percentages are stated up to that idealization.
- Go `time.Time` values are abstract `Int` timestamps (only equality and
  difference against a 24h cutoff are ever used by the program).
- Concurrency: the worker pools in `scanDirectory` write results into
  disjoint slots of a results slice and are joined by a `WaitGroup`
  before any result is read, so the parallel phases are deterministic and
  are embedded as the equivalent sequential passes.
-/

namespace Dirgo

/-- Metadata returned by a successful `os.Stat` / `DirEntry.Info` call:
the size in bytes and the modification time (abstract timestamp). -/
structure FileInfo where
  size : Int
  modTime : Int
deriving DecidableEq

/-- One child of a directory listing, as the scanner can observe it.

`info` is the result of `DirEntry.Info()` on the entry itself (lstat
semantics: for a symlink it describes the link, not the target);
`none` models an `Info()` error, in which case the Go code leaves size
and modification time at their zero values.

A `dir` carries the result of `os.ReadDir` on it (`none` = read error).
A symlink is split by what `os.Stat` on its path reports:
`symlinkDir` (target resolves to a directory, carrying the listing that
following the link yields) versus `symlinkOther` (stat failed or the
target is not a directory). -/
inductive FSTree where
  | file (name : String) (info : Option FileInfo) : FSTree
  | dir (name : String) (info : Option FileInfo) (listing : Option (List FSTree)) : FSTree
  | symlinkDir (name : String) (info : Option FileInfo) (listing : Option (List FSTree)) : FSTree
  | symlinkOther (name : String) (info : Option FileInfo) : FSTree

/-- Size recorded for an entry: `Info().Size()` when `Info` succeeded,
otherwise the zero value (the Go code only adds the size under
`err == nil`). -/
def infoSize : Option FileInfo → Int
  | none => 0
  | some i => i.size

/-- Modification time recorded for an entry: `Info().ModTime()` when
`Info` succeeded, otherwise the zero value. -/
def infoMod : Option FileInfo → Int
  | none => 0
  | some i => i.modTime

mutual
/-- Contribution of one listed child inside `dirSizeRecursive`
(part_002 lines 294-307): a child with `e.IsDir()` true increments
`dirs` and recurses; every other child (files and symlinks, since a
symlink's `DirEntry.IsDir()` is false) increments `files` and adds its
`Info` size when `Info` succeeds.  Result is `(size, files, dirs)`. -/
def dirSizeChild : FSTree → Int × Nat × Nat
  | .dir _ _ l =>
      let r := dirSizeListing l
      (r.1, r.2.1, r.2.2 + 1)
  | .file _ i => (infoSize i, 1, 0)
  | .symlinkDir _ i _ => (infoSize i, 1, 0)
  | .symlinkOther _ i => (infoSize i, 1, 0)

/-- Accumulation of `dirSizeChild` over a listing, in listing order. -/
def dirSizeChildren : List FSTree → Int × Nat × Nat
  | [] => (0, 0, 0)
  | c :: rest =>
      let a := dirSizeChild c
      let b := dirSizeChildren rest
      (a.1 + b.1, a.2.1 + b.2.1, a.2.2 + b.2.2)

/-- Body of `dirSizeRecursive` applied to the result of `os.ReadDir`:
a read error yields `(0, 0, 0)` (part_002 lines 290-292). -/
def dirSizeListing : Option (List FSTree) → Int × Nat × Nat
  | none => (0, 0, 0)
  | some cs => dirSizeChildren cs
end

/-- dirSizeRecursive from part_002: total size, file count and
subdirectory count of a directory (the directory itself is not counted,
since only children are ever counted). -/
def dirSizeRecursive (listing : Option (List FSTree)) : Int × Nat × Nat :=
  dirSizeListing listing

/-! ### Line counter (part_001 / part_000, `utils.go`) -/

/-- Bytes of file content; Go `byte` values are `Nat` (0..255 in practice). -/
abbrev Bytes := List Nat

/-- isBinaryContent from part_001: look for a zero byte in at most the
first 512 bytes of the probed data (`check := data[:512]` when longer;
`bytes.IndexByte(check, 0) >= 0`). -/
def isBinaryContent (data : Bytes) : Bool :=
  (data.take 512).contains 0

/-- Newline count of a chunk: `bytes.Count(buf[:n], []byte{'\n'})`,
byte 10 being `'\n'`. -/
def countNewlines (chunk : Bytes) : Nat :=
  chunk.countP (fun b => b == 10)

/-- Read loop of countLines (part_001 lines 109-115):
`for totalRead < maxSize && err == nil { n, err = f.Read(buf); ... }`.
A read on exhausted content returns `(0, io.EOF)`, so the loop stops at
the end of `remaining`.  The `fuel` argument only bounds the recursion:
every productive iteration consumes at least one byte of `remaining`,
so `remaining.length` iterations always suffice (the Go loop terminates
for the same reason).  The `chunk.length = 0` branch corresponds to a
zero-sized read buffer, which never occurs (pool buffers are 64 KiB in
part_001, 32 KiB in part_000). -/
def countLoop (bufSize : Nat) (maxSize : Int) :
    Nat → Bytes → Int → Nat → Nat
  | 0, _, _, count => count
  | fuel + 1, remaining, totalRead, count =>
    if totalRead < maxSize then
      match remaining with
      | [] => count
      | r :: rs =>
        let chunk := (r :: rs).take bufSize
        if chunk.length = 0 then count
        else
          countLoop bufSize maxSize fuel ((r :: rs).drop bufSize)
            (totalRead + (chunk.length : Int)) (count + countNewlines chunk)
    else count

/-- Observable behaviour of one file for `countLines`: the `os.Stat`
result (`none` = stat error; otherwise whether it is a directory and its
size), whether `os.Open` succeeds, and the byte content successive
`Read` calls deliver. -/
structure FileModel where
  stat : Option (Bool × Int)
  openOk : Bool
  content : Bytes

/-- countLines from part_001 lines 79-117 (identical in part_000 up to
the read-buffer size, which is the `bufSize` parameter: 65536 in
part_001, 32768 in part_000).  Returns `(count, isBinary, err)` with the
error channel modelled as `Option Unit` (`none` = nil error):
stat failure, directory, or zero size return `(0, false, err)` where
`err` is the stat error (nil in the latter two cases); an over-limit
size returns `(0, false, nil)` before opening; an open failure returns
the open error; otherwise the first chunk is probed for binary content
and newlines are accumulated chunk by chunk. -/
def countLines (f : FileModel) (maxSize : Int) (bufSize : Nat) :
    Nat × Bool × Option Unit :=
  match f.stat with
  | none => (0, false, some ())
  | some (isDir, size) =>
    if isDir || size == 0 then (0, false, none)
    else if size > maxSize then (0, false, none)
    else if !f.openOk then (0, false, some ())
    else
      let firstChunk := f.content.take bufSize
      let n := firstChunk.length
      if 0 < n ∧ isBinaryContent firstChunk = true then (0, true, none)
      else
        let count0 := if 0 < n then countNewlines firstChunk else 0
        let rest := f.content.drop bufSize
        (countLoop bufSize maxSize rest.length rest (n : Int) count0, false, none)

/-! ### Entries and sorting (`entry.go`) -/

/-- FileEntry from entry.go; field defaults are the Go zero values.
`percentage` (Go `float64`) is modelled as an exact rational. -/
structure FileEntry where
  name : String
  size : Int := 0
  isDir : Bool := false
  isHidden : Bool := false
  isBinary : Bool := false
  isSymlink : Bool := false
  lineCount : Nat := 0
  percentage : ℚ := 0
  childFiles : Nat := 0
  childDirs : Nat := 0
  modTime : Int := 0
deriving DecidableEq

/-- Insertion step of the stable descending-by-size sort: the inserted
entry came before every element of the tail in the original listing, so
it is placed before the first element whose size is not strictly
greater. -/
def insertBySize (e : FileEntry) : List FileEntry → List FileEntry
  | [] => [e]
  | x :: xs => if e.size < x.size then x :: insertBySize e xs else e :: x :: xs

/-- SortBySize from entry.go: `sort.SliceStable` with
`entries[i].Size > entries[j].Size`, i.e. the unique stable sort by
size descending, modelled as a stable insertion sort. -/
def SortBySize : List FileEntry → List FileEntry
  | [] => []
  | x :: xs => insertBySize x (SortBySize xs)

/-! ### String helpers used by the scanner (part_001) -/

/-- Core of `filepath.Ext`: scanning the reversed character list, collect
up to and including the first `'.'`; a path separator or the start of the
string before any dot means no extension.  Returns the reversed
extension characters. -/
def extRevAux : List Char → Option (List Char)
  | [] => none
  | c :: rest =>
    if c = '.' then some [c]
    else if c = '/' then none
    else
      match extRevAux rest with
      | none => none
      | some e => some (c :: e)

/-- filepath.Ext: the suffix of the final path element starting at its
last dot (including the dot), or the empty string. -/
def filepathExt (name : String) : String :=
  match extRevAux name.toList.reverse with
  | none => ""
  | some e => String.mk e.reverse

/-- isBinaryExt from part_001 lines 120-134: extension-based binary
classification. -/
def isBinaryExt (name : String) : Bool :=
  [".png", ".jpg", ".jpeg", ".gif", ".bmp", ".ico", ".webp", ".svg",
   ".mp3", ".mp4", ".wav", ".avi", ".mov", ".mkv", ".flac", ".ogg",
   ".zip", ".tar", ".gz", ".bz2", ".xz", ".7z", ".rar", ".zst",
   ".exe", ".dll", ".so", ".dylib", ".bin", ".o", ".a",
   ".pdf", ".doc", ".docx", ".xls", ".xlsx", ".ppt", ".pptx",
   ".ttf", ".otf", ".woff", ".woff2", ".eot",
   ".pyc", ".pyo", ".class", ".wasm",
   ".db", ".sqlite", ".sqlite3"].contains ((filepathExt name).toLower)

/-! ### Directory scanner (part_002, `scanner.go`) -/

/-- scanResultMsg from part_002: the output of one directory scan. -/
structure scanResultMsg where
  path : String
  entries : List FileEntry
  totalSize : Int
  totalFiles : Nat
  totalDirs : Nat
  dirModTime : Int
deriving DecidableEq

/-- Outcome of `scanDirectory`: either a `scanErrorMsg` (all three fatal
root failures return it, carrying only the error) or a `scanResultMsg`. -/
inductive ScanOutcome where
  | err : ScanOutcome
  | ok (r : scanResultMsg) : ScanOutcome
deriving DecidableEq

/-- What one invocation of `scanDirectory` can observe about its root:
the (already absolutized) path, the `os.Stat(absPath)` result and the
`os.ReadDir(absPath)` result. -/
structure ScanRoot where
  path : String
  rootStat : Option FileInfo
  rootListing : Option (List FSTree)

/-- Directory entry as first constructed in the classification pass
(part_002 lines 96-111): size and child counts still zero, hidden =
leading dot, modification time from `de.Info()` when it succeeds. -/
def mkDirEntry (name : String) (isSym : Bool) (info : Option FileInfo) : FileEntry :=
  { name := name, isDir := true, isHidden := name.startsWith ".",
    isSymlink := isSym, modTime := infoMod info }

/-- Aggregates of `dirSizeRecursive` applied back onto a directory entry
(part_002 lines 148-154). -/
def applyDirSize (e : FileEntry) (listing : Option (List FSTree)) : FileEntry :=
  let r := dirSizeRecursive listing
  { e with size := r.1, childFiles := r.2.1, childDirs := r.2.2 }

/-- File entry as built in the stat pass (part_002 lines 168-203): size
and modification time from `de.Info()` when it succeeds, binary flag
from the extension. -/
def mkFileEntry (name : String) (isSym : Bool) (info : Option FileInfo) : FileEntry :=
  { name := name, size := infoSize info, isHidden := name.startsWith ".",
    isBinary := isBinaryExt name, isSymlink := isSym, modTime := infoMod info }

/-- Classification of one listed child (part_002 lines 82-118): regular
directories and symlinks resolving to directories are directories,
everything else is a file. -/
def isDirChild : FSTree → Bool
  | .dir _ _ _ => true
  | .symlinkDir _ _ _ => true
  | .file _ _ => false
  | .symlinkOther _ _ => false

/-- The directory entries of a scan, in listing order, with the
aggregates of the (joined) per-directory size workers already applied.
The Go code builds the entries first and patches results in by index
after `wg.Wait()`; since worker `resultIdx` slots are disjoint, the two
phases compose to this single pass. -/
def scanDirEntries : List FSTree → List FileEntry
  | [] => []
  | .dir n i l :: rest => applyDirSize (mkDirEntry n false i) l :: scanDirEntries rest
  | .symlinkDir n i l :: rest => applyDirSize (mkDirEntry n true i) l :: scanDirEntries rest
  | .file _ _ :: rest => scanDirEntries rest
  | .symlinkOther _ _ :: rest => scanDirEntries rest

/-- The file entries of a scan, in listing order (the parallel and the
sequential stat branches fill the same `results[i]` slots, so both equal
this pass). -/
def scanFileEntries : List FSTree → List FileEntry
  | [] => []
  | .file n i :: rest => mkFileEntry n false i :: scanFileEntries rest
  | .symlinkOther n i :: rest => mkFileEntry n true i :: scanFileEntries rest
  | .dir _ _ _ :: rest => scanFileEntries rest
  | .symlinkDir _ _ _ :: rest => scanFileEntries rest

/-- Sum of the size fields of a list of entries. -/
def sumSizes (l : List FileEntry) : Int :=
  (l.map FileEntry.size).sum

/-- Percentage pass (part_002 lines 210-214): when the total is positive
every entry gets `float64(size)/float64(total)*100`, otherwise
percentages keep their zero value. -/
def applyPercentages (totalSize : Int) (l : List FileEntry) : List FileEntry :=
  if totalSize > 0 then
    l.map (fun e => { e with percentage := (e.size : ℚ) / (totalSize : ℚ) * 100 })
  else l

/-- scanDirectory from part_002 lines 51-227: stat and list the root
(either failure is fatal and returns `scanErrorMsg`), classify children,
aggregate every subdirectory with `dirSizeRecursive`, stat files, sum
sizes (directory totals first, then file sizes, as in the source),
compute percentages and stable-sort by size descending. -/
def scanDirectory (root : ScanRoot) : ScanOutcome :=
  match root.rootStat with
  | none => .err
  | some st =>
    match root.rootListing with
    | none => .err
    | some cs =>
      let dirEs := scanDirEntries cs
      let fileEs := scanFileEntries cs
      let totalSize := sumSizes dirEs + sumSizes fileEs
      let entries := SortBySize (applyPercentages totalSize (dirEs ++ fileEs))
      .ok { path := root.path, entries := entries, totalSize := totalSize,
            totalFiles := fileEs.length, totalDirs := dirEs.length,
            dirModTime := st.modTime }

/-- Outcome of a smart refresh: `scanUpToDateMsg{path}` or whatever the
fallback full scan produced. -/
inductive RefreshOutcome where
  | upToDate (path : String) : RefreshOutcome
  | scanned (o : ScanOutcome) : RefreshOutcome
deriving DecidableEq

/-- What `smartRefreshCmd` can observe: the `os.Stat(path)` modification
time (`none` = stat error) and the root snapshot a fallback
`scanDirectory` would see. -/
structure RefreshEnv where
  statModTime : Option Int
  root : ScanRoot

/-- smartRefreshCmd from part_002 lines 230-241: a stat failure falls
back to a full scan; an exactly equal modification time reports
up-to-date; any other modification time triggers a full scan. -/
def smartRefreshCmd (env : RefreshEnv) (cached : scanResultMsg) : RefreshOutcome :=
  match env.statModTime with
  | none => .scanned (scanDirectory env.root)
  | some mt =>
    if mt = cached.dirModTime then .upToDate env.root.path
    else .scanned (scanDirectory env.root)

/-! ### Bounded LRU scan cache (`cache.go`, embedded at the end of
render_test.go) -/

/-- lruCache: `container/list` front-to-back recency order plus a map
whose key set mirrors the list.  The model keeps the recency list of
(key, value) pairs directly; the front of `items` is the front of the
Go list (most recently used). -/
structure lruCache where
  maxEntries : Nat
  items : List (String × scanResultMsg)
deriving DecidableEq

/-- newLRUCache: empty list and map. -/
def newLRUCache (maxEntries : Nat) : lruCache :=
  { maxEntries := maxEntries, items := [] }

/-- Number of cached entries (`ll.Len()`). -/
def lruCache.Len (c : lruCache) : Nat := c.items.length

/-- Get: on a hit, move the element to the front and return its value;
on a miss return the zero value and `false` (modelled as `none`).
The returned cache is the post-call state. -/
def lruCache.Get (c : lruCache) (k : String) : Option scanResultMsg × lruCache :=
  match c.items.find? (fun p => p.1 == k) with
  | some p => (some p.2, { c with items := p :: c.items.eraseP (fun q => q.1 == k) })
  | none => (none, c)

/-- evictOldest: remove the back (least recently used) element if any. -/
def lruCache.evictOldest (c : lruCache) : lruCache :=
  { c with items := c.items.dropLast }

/-- Put: update an existing key's value in place and move it to the
front, or push a new element to the front and evict the oldest when the
length exceeds `maxEntries`. -/
def lruCache.Put (c : lruCache) (k : String) (v : scanResultMsg) : lruCache :=
  match c.items.find? (fun p => p.1 == k) with
  | some _ => { c with items := (k, v) :: c.items.eraseP (fun q => q.1 == k) }
  | none =>
    let c' : lruCache := { c with items := (k, v) :: c.items }
    if c'.items.length > c.maxEntries then c'.evictOldest else c'

/-- Delete: remove the element for the key if present. -/
def lruCache.Delete (c : lruCache) (k : String) : lruCache :=
  { c with items := c.items.eraseP (fun q => q.1 == k) }

/-! ### Disk persistence (`cache.go`) -/

/-- serializedEntry: the gob-friendly snapshot of one cached record. -/
structure serializedEntry where
  Path : String
  Entries : List FileEntry
  TotalSize : Int
  TotalFiles : Nat
  TotalDirs : Nat
  DirModTime : Int
  CachedAt : Int
deriving DecidableEq

/-- serializedCache: version tag plus the serialized records. -/
structure serializedCache where
  Version : Nat
  Items : List serializedEntry
deriving DecidableEq

/-- Current schema version. -/
def cacheVersion : Nat := 1

/-- cacheMaxAge: 24 hours as a Go `time.Duration` (nanoseconds). -/
def cacheMaxAge : Int := 24 * 60 * 60 * 1000000000

/-- diskCacheMax: at most 50 records are persisted. -/
def diskCacheMax : Nat := 50

/-- SaveToDisk, serialization part: walk the recency list from the front
collecting at most `diskCacheMax` records, stamping each with the save
time (the Go code calls `time.Now()` per record inside one loop; the
single `now` stands for that instant).  Note the persisted key is the
result's `path` field, exactly as in the source (`ci.value.path`).
Filesystem write errors are outside the serialization semantics. -/
def lruCache.SaveToDisk (c : lruCache) (now : Int) : serializedCache :=
  { Version := cacheVersion,
    Items := (c.items.take diskCacheMax).map (fun p =>
      { Path := p.2.path, Entries := p.2.entries, TotalSize := p.2.totalSize,
        TotalFiles := p.2.totalFiles, TotalDirs := p.2.totalDirs,
        DirModTime := p.2.dirModTime, CachedAt := now }) }

/-- What `LoadFromDisk` finds on disk: `missing` (`os.Open` fails with
not-exist), `openError` (`os.Open` fails with any other error, e.g. a
permission error on an existing file), `malformed` (gob decode fails),
or a successfully decoded stream. -/
inductive DiskFile where
  | missing : DiskFile
  | openError : DiskFile
  | malformed : DiskFile
  | ok (sc : serializedCache) : DiskFile

/-- Reconstruction of a cached result from a persisted record. -/
def recordToResult (it : serializedEntry) : scanResultMsg :=
  { path := it.Path, entries := it.Entries, totalSize := it.TotalSize,
    totalFiles := it.TotalFiles, totalDirs := it.TotalDirs,
    dirModTime := it.DirModTime }

/-- LoadFromDisk from cache.go lines 450-492: a missing file and a
malformed stream are ignored (`nil` error, cache untouched); any other
open error is returned (`return err`), also leaving the cache untouched;
a version mismatch discards the whole file; otherwise records are
visited in reverse order (`for i := len-1; i >= 0; i--`), records older
than `cacheMaxAge` are skipped, and the rest are `Put` into the cache.
Returns the cache after the call and the function's error result. -/
def lruCache.LoadFromDisk (c : lruCache) (file : DiskFile) (now : Int) :
    lruCache × Option Unit :=
  match file with
  | .missing => (c, none)
  | .openError => (c, some ())
  | .malformed => (c, none)
  | .ok sc =>
    if sc.Version ≠ cacheVersion then (c, none)
    else
      (sc.Items.reverse.foldl (fun acc it =>
        if now - it.CachedAt > cacheMaxAge then acc
        else acc.Put it.Path (recordToResult it)) c, none)

/-! ### Spec-side notions used by the claims -/

mutual
/-- Modelled after the spec's "N files nested anywhere beneath" a
directory with these children: non-directory children count one each,
directory children contribute their own nested count. -/
def nestedFileCount : List FSTree → Nat
  | [] => 0
  | c :: rest => nestedFileCountChild c + nestedFileCount rest

/-- Nested file count contributed by one child. -/
def nestedFileCountChild : FSTree → Nat
  | .dir _ _ (some cs) => nestedFileCount cs
  | .dir _ _ none => 0
  | _ => 1
end

mutual
/-- Modelled after the spec's "sum of all nested file sizes" beneath a
directory with these children. -/
def nestedSizeSum : List FSTree → Int
  | [] => 0
  | c :: rest => nestedSizeChild c + nestedSizeSum rest

/-- Nested size contributed by one child. -/
def nestedSizeChild : FSTree → Int
  | .dir _ _ (some cs) => nestedSizeSum cs
  | .dir _ _ none => 0
  | .file _ i => infoSize i
  | .symlinkDir _ i _ => infoSize i
  | .symlinkOther _ i => infoSize i
end

mutual
/-- Modelled after the spec's descendant directory count (the root
directory itself excluded): each directory child counts one plus its own
descendants. -/
def nestedDirCount : List FSTree → Nat
  | [] => 0
  | c :: rest => nestedDirCountChild c + nestedDirCount rest

/-- Descendant directories contributed by one child. -/
def nestedDirCountChild : FSTree → Nat
  | .dir _ _ (some cs) => nestedDirCount cs + 1
  | .dir _ _ none => 1
  | _ => 0
end

mutual
/-- A fully observable subtree: every `ReadDir` succeeds and every
non-directory's `Info` succeeds, so the nested counts are well defined. -/
def allOkList : List FSTree → Bool
  | [] => true
  | c :: rest => allOkChild c && allOkList rest

/-- Full observability of one child. -/
def allOkChild : FSTree → Bool
  | .file _ i => i.isSome
  | .symlinkOther _ i => i.isSome
  | .symlinkDir _ i _ => i.isSome
  | .dir _ _ none => false
  | .dir _ _ (some cs) => allOkList cs
end

/-- Entries of a scan outcome (empty for a failed scan); lets concrete
statements project fields without matching on the outcome. -/
def entriesOf : ScanOutcome → List FileEntry
  | .err => []
  | .ok r => r.entries

/-! ### Helper lemmas -/

theorem insertBySize_perm (e : FileEntry) (l : List FileEntry) :
    List.Perm (insertBySize e l) (e :: l) := by
  induction l with
  | nil => simp [insertBySize]
  | cons x xs ih =>
    by_cases h : e.size < x.size
    · simp only [insertBySize, if_pos h]
      exact (ih.cons x).trans (List.Perm.swap e x xs)
    · simp [insertBySize, h]

theorem SortBySize_perm (l : List FileEntry) : List.Perm (SortBySize l) l := by
  induction l with
  | nil => simp [SortBySize]
  | cons x xs ih =>
    exact (insertBySize_perm x (SortBySize xs)).trans (ih.cons x)

/-! ### C10: smart refresh gate -/

/-- C10: if the stat fails, smart refresh falls back to a full scan; if
the live modification time is exactly the cached one it reports
up-to-date (for every possible directory content, i.e. without reading
it); any differing modification time triggers a full scan. -/
theorem smartRefresh_gate (env : RefreshEnv) (cached : scanResultMsg) :
    (env.statModTime = none →
      smartRefreshCmd env cached = .scanned (scanDirectory env.root)) ∧
    (env.statModTime = some cached.dirModTime →
      smartRefreshCmd env cached = .upToDate env.root.path) ∧
    (∀ mt, env.statModTime = some mt → mt ≠ cached.dirModTime →
      smartRefreshCmd env cached = .scanned (scanDirectory env.root)) := by
  refine ⟨fun h => ?_, fun h => ?_, fun mt h hne => ?_⟩
  · simp [smartRefreshCmd, h]
  · simp [smartRefreshCmd, h]
  · simp [smartRefreshCmd, h, hne]

/-- Witness for C10: with cached modification time 7 and live
modification time 7 the gate reports up-to-date. -/
theorem smartRefresh_gate_witness :
    smartRefreshCmd ⟨some 7, ⟨"/w", none, none⟩⟩
      { path := "/w", entries := [], totalSize := 0, totalFiles := 0,
        totalDirs := 0, dirModTime := 7 } = .upToDate "/w" :=
  (smartRefresh_gate _ _).2.1 rfl

/-! ### C5 and C6: line counter -/

/-- C5: countLines returns `(0, false, stat-error-or-nil)` when the stat
fails, the path is a directory, or the size is zero; an over-limit size
returns `(0, false, nil)` without reading the content (the result is
invariant under any change of content); the five-line text file yields
`(5, false, nil)`; an empty file yields `(0, false, nil)`. -/
theorem countLines_contract :
    (∀ f ms bs, f.stat = none → countLines f ms bs = (0, false, some ())) ∧
    (∀ f ms bs sz, f.stat = some (true, sz) → countLines f ms bs = (0, false, none)) ∧
    (∀ f ms bs d, f.stat = some (d, 0) → countLines f ms bs = (0, false, none)) ∧
    (∀ f ms bs d sz, f.stat = some (d, sz) → sz > ms →
      countLines f ms bs = (0, false, none)) ∧
    (∀ f ms bs d sz c, f.stat = some (d, sz) → sz > ms →
      countLines f ms bs = countLines { f with content := c } ms bs) ∧
    (countLines ⟨some (false, 10), true, [97, 10, 98, 10, 99, 10, 100, 10, 101, 10]⟩
      (10 * 1024 * 1024) 65536 = (5, false, none)) ∧
    (∀ bs b, countLines ⟨some (false, 0), b, []⟩ (10 * 1024 * 1024) bs = (0, false, none)) := by
  have hover : ∀ f ms bs d sz, f.stat = some (d, sz) → sz > ms →
      countLines f ms bs = (0, false, none) := by
    intro f ms bs d sz h hgt
    by_cases hd : (d || sz == 0) = true
    · simp [countLines, h, hd]
    · simp [countLines, h, hd, hgt]
  refine ⟨fun f ms bs h => by simp [countLines, h],
          fun f ms bs sz h => by simp [countLines, h],
          fun f ms bs d h => by simp [countLines, h],
          hover, ?_, by decide, fun bs b => by simp [countLines]⟩
  intro f ms bs d sz c h hgt
  rw [hover f ms bs d sz h hgt, hover { f with content := c } ms bs d sz h hgt]

/-- Witness for C5: the stat-failure, directory, and over-limit rules at
concrete inputs. -/
theorem countLines_contract_witness :
    countLines ⟨none, true, [10]⟩ 100 4 = (0, false, some ()) ∧
    countLines ⟨some (true, 5), true, [10]⟩ 100 4 = (0, false, none) ∧
    countLines ⟨some (false, 200), true, [10]⟩ 100 4 = (0, false, none) :=
  ⟨countLines_contract.1 _ _ _ rfl,
   countLines_contract.2.1 _ _ _ 5 rfl,
   countLines_contract.2.2.2.1 _ _ _ false 200 rfl (by decide)⟩

/-- C6: for a readable, non-directory, non-empty file within the size
limit, the binary probe is exactly a zero-byte search in the first 512
bytes of the first chunk (or the whole chunk when shorter): a zero byte
there returns `(0, true, nil)` immediately, and when that prefix has no
zero byte the file is not classified as binary, wherever later zero
bytes occur. -/
theorem countLines_probe (f : FileModel) (ms : Int) (bs : Nat) (sz : Int)
    (hstat : f.stat = some (false, sz)) (hsz : ¬sz = 0) (hms : ¬sz > ms)
    (hopen : f.openOk = true) :
    (((f.content.take bs).take 512).contains 0 = true →
      countLines f ms bs = (0, true, none)) ∧
    (((f.content.take bs).take 512).contains 0 = false →
      (countLines f ms bs).2.1 = false) := by
  constructor
  · intro hzero
    have hmem : 0 ∈ (f.content.take bs).take 512 := by simpa using hzero
    have hne : f.content.take bs ≠ [] := by
      intro hnil
      rw [hnil] at hmem
      simp at hmem
    have hlen : 0 < (f.content.take bs).length := List.length_pos.mpr hne
    have hbin : isBinaryContent (f.content.take bs) = true := by
      simpa [isBinaryContent] using hzero
    have hbs : 0 < bs := by
      rcases Nat.eq_zero_or_pos bs with h0 | h
      · rw [h0] at hlen; simp at hlen
      · exact h
    have hc : f.content ≠ [] := by
      intro h0
      rw [h0] at hne
      simp at hne
    simp [countLines, hstat, hsz, hms, hopen, hlen, hbin, hbs, hc]
  · intro hzero
    have hbin : isBinaryContent (f.content.take bs) = false := by
      simpa [isBinaryContent] using hzero
    simp [countLines, hstat, hsz, hms, hopen, hbin]

set_option maxRecDepth 8000 in
/-- Witness for C6: a 514-byte file whose only zero byte sits right
after the 512-byte probe window is not classified as binary. -/
theorem countLines_probe_witness :
    (countLines ⟨some (false, 514), true, List.replicate 512 97 ++ [0, 10]⟩
      (10 * 1024 * 1024) 65536).2.1 = false :=
  (countLines_probe _ _ _ 514 rfl (by decide) (by decide) rfl).2 (by decide)

/-! ### C4: failure semantics of the scan -/

/-- Concrete input refuting C4 as stated: a readable root containing one
subdirectory `d` that contains a single file `f` whose `Info()` call
fails. -/
def c4root : ScanRoot :=
  ⟨"/r", some ⟨0, 1⟩, some [.dir "d" (some ⟨0, 2⟩) (some [.file "f" none])]⟩

/-- C4 counterexample: the claim says a failed entry inside a
subdirectory contributes zero to the aggregate size and counts, which
would give `d` a childFileCount of 0; the scan gives the stat-failed
file zero size but still counts it, so `d` has childFileCount 1. -/
theorem scan_entry_failure_counterexample :
    scanDirectory c4root ≠ .err ∧
    (entriesOf (scanDirectory c4root)).map
      (fun e => (e.name, e.size, e.childFiles, e.childDirs)) = [("d", 0, 1, 0)] := by
  constructor
  · decide
  · decide

/-- C4 (amended): a root stat or read failure is fatal and returns a
scan error with no partial result, while a scan with a readable root
always returns a result (entry-level failures are never surfaced);
within recursive aggregation a stat-failed file contributes zero size
but still one file, an unreadable nested directory contributes zero size
and zero nested entries but still one directory, and aggregation
continues over the remaining children. -/
theorem scan_failure_semantics :
    (∀ root : ScanRoot, root.rootStat = none → scanDirectory root = .err) ∧
    (∀ root : ScanRoot, root.rootListing = none → scanDirectory root = .err) ∧
    (∀ (root : ScanRoot) st cs, root.rootStat = some st →
      root.rootListing = some cs → ∃ r, scanDirectory root = .ok r) ∧
    (∀ n, dirSizeChild (.file n none) = (0, 1, 0)) ∧
    (∀ n i, dirSizeChild (.dir n i none) = (0, 0, 1)) ∧
    (∀ c rest, dirSizeChildren (c :: rest) =
      ((dirSizeChild c).1 + (dirSizeChildren rest).1,
       (dirSizeChild c).2.1 + (dirSizeChildren rest).2.1,
       (dirSizeChild c).2.2 + (dirSizeChildren rest).2.2)) := by
  refine ⟨fun root h => by simp [scanDirectory, h],
          fun root h => ?_,
          fun root st cs h1 h2 => by simp [scanDirectory, h1, h2],
          fun n => by simp [dirSizeChild, dirSizeListing, infoSize],
          fun n i => by simp [dirSizeChild, dirSizeListing],
          fun c rest => by simp [dirSizeChildren]⟩
  cases hst : root.rootStat <;> simp [scanDirectory, hst, h]

/-- Witness for C4 (amended) at concrete inputs: a root whose stat
fails errors out, a root whose read fails errors out, and a readable
root with an Info-failing file inside a subdirectory still scans. -/
theorem scan_failure_semantics_witness :
    scanDirectory ⟨"/p", none, some []⟩ = .err ∧
    scanDirectory ⟨"/p", some ⟨0, 0⟩, none⟩ = .err ∧
    (∃ r, scanDirectory c4root = .ok r) ∧
    dirSizeChild (.file "f" none) = (0, 1, 0) ∧
    dirSizeChild (.dir "d" none none) = (0, 0, 1) :=
  ⟨scan_failure_semantics.1 _ rfl,
   scan_failure_semantics.2.1 _ rfl,
   scan_failure_semantics.2.2.1 _ ⟨0, 1⟩ _ rfl rfl,
   scan_failure_semantics.2.2.2.1 "f",
   scan_failure_semantics.2.2.2.2.1 "d" none⟩

/-! ### C7: LRU cache operations -/

/-- Structure of a successful `find?`: the list splits at the first
match, and `eraseP` removes exactly that element. -/
theorem find_eraseP_split {α : Type} (p : α → Bool) (l : List α) (a : α)
    (h : l.find? p = some a) :
    ∃ l₁ l₂, l = l₁ ++ a :: l₂ ∧ (∀ b ∈ l₁, p b = false) ∧
      l.eraseP p = l₁ ++ l₂ ∧ p a = true := by
  induction l with
  | nil => simp at h
  | cons x xs ih =>
    by_cases hx : p x = true
    · rw [List.find?_cons_of_pos _ hx] at h
      obtain rfl : x = a := by injection h
      exact ⟨[], xs, by simp, by simp, by simp [List.eraseP_cons, hx], hx⟩
    · rw [List.find?_cons_of_neg _ (by simpa using hx)] at h
      obtain ⟨l₁, l₂, hl, hl₁, he, ha⟩ := ih h
      refine ⟨x :: l₁, l₂, by simp [hl], ?_, ?_, ha⟩
      · intro b hb
        rcases List.mem_cons.mp hb with rfl | hb'
        · simpa using hx
        · exact hl₁ b hb'
      · simp [List.eraseP_cons_of_neg, hx, he]

/-- Put of a key that is not in a cache with spare capacity: the new
element is pushed to the front and nothing is evicted. -/
theorem lruPut_new (c : lruCache) (k : String) (v : scanResultMsg)
    (hf : c.items.find? (fun q => q.1 == k) = none)
    (hlt : c.items.length < c.maxEntries) :
    c.Put k v = { c with items := (k, v) :: c.items } := by
  have hno : ¬c.maxEntries < c.items.length + 1 := by omega
  simp [lruCache.Put, hf, hno]

/-- Values used by the concrete C7 scenario (the test uses
`scanResultMsg{path: ...}`). -/
def resA : scanResultMsg :=
  { path := "/a", entries := [], totalSize := 0, totalFiles := 0,
    totalDirs := 0, dirModTime := 0 }

/-- Second scenario value. -/
def resB : scanResultMsg := { resA with path := "/b" }

/-- Third scenario value. -/
def resC : scanResultMsg := { resA with path := "/c" }

/-- Cache of capacity 2 after Put(/a), Put(/b), Get(/a), Put(/c). -/
def lruScenario : lruCache :=
  (((((newLRUCache 2).Put "/a" resA).Put "/b" resB).Get "/a").2).Put "/c" resC

/-- C7: in the capacity-2 scenario Put(A), Put(B), Get(A), Put(C), key B
is evicted while A and C remain; in general Get moves the found entry to
the most-recent position (permuting, not changing, the contents), Put on
an existing key updates it in place at the most-recent position without
changing the length, Put of a new key under capacity inserts at the
most-recent position, and Put of a new key at capacity inserts at the
most-recent position and evicts exactly the least-recently-used entry. -/
theorem lru_recency :
    ((lruScenario.Get "/b").1 = none ∧ (lruScenario.Get "/a").1 = some resA ∧
      (lruScenario.Get "/c").1 = some resC) ∧
    (∀ (c : lruCache) k v c', c.Get k = (some v, c') →
      c'.items.head? = some (k, v) ∧ c'.items.Perm c.items) ∧
    (∀ (c : lruCache) k v p, c.items.find? (fun q => q.1 == k) = some p →
      (c.Put k v).items.head? = some (k, v) ∧ (c.Put k v).Len = c.Len) ∧
    (∀ (c : lruCache) k v, c.items.find? (fun q => q.1 == k) = none →
      c.items.length < c.maxEntries → (c.Put k v).items = (k, v) :: c.items) ∧
    (∀ (c : lruCache) k v, c.items.find? (fun q => q.1 == k) = none →
      c.items.length = c.maxEntries → 0 < c.maxEntries →
      (c.Put k v).items = (k, v) :: c.items.dropLast) := by
  refine ⟨by decide, ?_, ?_, ?_, ?_⟩
  · intro c k v c' h
    rcases hf : c.items.find? (fun q => q.1 == k) with _ | p
    · rw [lruCache.Get, hf] at h
      simp at h
    · rw [lruCache.Get, hf] at h
      obtain ⟨hv, hc⟩ := Prod.mk.injEq .. ▸ h
      obtain rfl : p.2 = v := by injection hv
      have hk : p.1 = k := by
        have := List.find?_some hf
        simpa using this
      obtain ⟨l₁, l₂, hl, _, he, _⟩ := find_eraseP_split _ _ _ hf
      constructor
      · rw [← hc]
        simp [← hk]
      · rw [← hc]
        show (p :: c.items.eraseP fun q => q.1 == k).Perm c.items
        rw [he, hl]
        exact List.perm_middle.symm
  · intro c k v p hf
    obtain ⟨l₁, l₂, hl, _, he, _⟩ := find_eraseP_split _ _ _ hf
    have hput : (c.Put k v).items = (k, v) :: (l₁ ++ l₂) := by
      simp [lruCache.Put, hf, he]
    constructor
    · rw [hput]
      rfl
    · show (c.Put k v).items.length = c.items.length
      rw [hput, hl]
      simp only [List.length_cons, List.length_append]
      omega
  · intro c k v hf hlt
    rw [lruPut_new c k v hf hlt]
  · intro c k v hf hlen hpos
    rcases hitems : c.items with _ | ⟨y, ys⟩
    · rw [hitems] at hlen
      simp at hlen
      omega
    · rw [hitems] at hf
      have hyes : c.maxEntries < ys.length + 1 + 1 := by
        rw [hitems] at hlen
        simp at hlen
        omega
      simp [lruCache.Put, hf, hyes, lruCache.evictOldest, hitems]

/-- Witness cache for the general C7 conjuncts. -/
def wCache : lruCache := ⟨2, [("/x", resA), ("/y", resB)]⟩

/-- Witness for C7: the general Get/Put statements applied to concrete
caches. -/
theorem lru_recency_witness :
    ((wCache.Get "/y").2.items.head? = some ("/y", resB) ∧
      (wCache.Get "/y").2.items.Perm wCache.items) ∧
    ((wCache.Put "/x" resC).items.head? = some ("/x", resC) ∧
      (wCache.Put "/x" resC).Len = wCache.Len) ∧
    ((⟨2, [("/x", resA)]⟩ : lruCache).Put "/y" resB).items =
      ("/y", resB) :: [("/x", resA)] ∧
    (wCache.Put "/z" resC).items = ("/z", resC) :: wCache.items.dropLast :=
  ⟨lru_recency.2.1 wCache "/y" resB _ (by decide),
   lru_recency.2.2.1 wCache "/x" resC ("/x", resA) (by decide),
   lru_recency.2.2.2.1 ⟨2, [("/x", resA)]⟩ "/y" resB (by decide) (by decide),
   lru_recency.2.2.2.2 wCache "/z" resC (by decide) (by decide) (by decide)⟩

/-! ### C8: save/load round trip -/

/-- The record cached for `/test/dir1` in the round-trip scenario: 42
files and a single entry `file.go` of size 1024. -/
def msgDir1 : scanResultMsg :=
  { path := "/test/dir1", entries := [{ name := "file.go", size := 1024 }],
    totalSize := 1024, totalFiles := 42, totalDirs := 0, dirModTime := 99 }

/-- Cache holding the `/test/dir1` record before the save. -/
def c8cache : lruCache := (newLRUCache 10).Put "/test/dir1" msgDir1

/-- C8: saving the cache that holds the `/test/dir1` record with 42
files and one `file.go` entry of size 1024, then loading the serialized
stream into a fresh cache no more than 24 hours later, yields a record
for `/test/dir1` with totalFiles 42 whose entries list is exactly one
entry named `file.go` of size 1024. -/
theorem cache_roundtrip (tSave tLoad : Int) (h : tLoad - tSave ≤ cacheMaxAge) :
    ∃ v, ((((newLRUCache 10).LoadFromDisk (.ok (c8cache.SaveToDisk tSave)) tLoad).1).Get
        "/test/dir1").1 = some v ∧
      v.totalFiles = 42 ∧
      v.entries.map (fun e => (e.name, e.size)) = [("file.go", 1024)] := by
  have hcond : ¬(tLoad - tSave > cacheMaxAge) := not_lt.mpr h
  refine ⟨{ path := "/test/dir1",
            entries := [{ name := "file.go", size := 1024 }],
            totalSize := 1024, totalFiles := 42, totalDirs := 0,
            dirModTime := 99 }, ?_, rfl, rfl⟩
  simp [c8cache, msgDir1, newLRUCache, lruCache.Put, lruCache.SaveToDisk,
    lruCache.LoadFromDisk, cacheVersion, diskCacheMax, hcond, lruCache.Get,
    recordToResult]

/-- Witness for C8: the round trip at save time 0 and load time 0. -/
theorem cache_roundtrip_witness :
    ∃ v, ((((newLRUCache 10).LoadFromDisk (.ok (c8cache.SaveToDisk 0)) 0).1).Get
        "/test/dir1").1 = some v ∧
      v.totalFiles = 42 ∧
      v.entries.map (fun e => (e.name, e.size)) = [("file.go", 1024)] :=
  cache_roundtrip 0 0 (by decide)

/-! ### C9: load semantics -/

/-- C9 counterexample: the claim says an unreadable file is discarded
silently with no error surfaced, but an existing-yet-unreadable cache
file (an `os.Open` failure other than not-exist) makes `LoadFromDisk`
return that error to its caller. -/
theorem load_openError_counterexample :
    ((newLRUCache 100).LoadFromDisk DiskFile.openError 0).2 ≠ none := by
  decide

/-- Load step as a `foldr` (the source's reverse `for` loop is
`foldl` over the reversed record list): on a fresh cache with enough
capacity and distinct record paths, the loaded cache holds exactly the
records younger than the cutoff, in saved order, the first saved record
at the most-recently-used position. -/
theorem load_fold_eq (now : Int) (cap : Nat) (items : List serializedEntry)
    (hnodup : (items.map serializedEntry.Path).Nodup)
    (hlen : (items.filter (fun it => now - it.CachedAt ≤ cacheMaxAge)).length ≤ cap) :
    items.foldr (fun it acc =>
        if now - it.CachedAt > cacheMaxAge then acc
        else acc.Put it.Path (recordToResult it)) (newLRUCache cap)
      = { maxEntries := cap,
          items := (items.filter (fun it => now - it.CachedAt ≤ cacheMaxAge)).map
            (fun it => (it.Path, recordToResult it)) } := by
  induction items with
  | nil => simp [newLRUCache]
  | cons it rest ih =>
    have hnodup' : (rest.map serializedEntry.Path).Nodup := (List.nodup_cons.mp hnodup).2
    have hpath : it.Path ∉ rest.map serializedEntry.Path := (List.nodup_cons.mp hnodup).1
    have hmono : (rest.filter (fun x => now - x.CachedAt ≤ cacheMaxAge)).length ≤
        ((it :: rest).filter (fun x => now - x.CachedAt ≤ cacheMaxAge)).length := by
      rw [List.filter_cons]
      split
      · simp
      · simp
    by_cases hstale : now - it.CachedAt > cacheMaxAge
    · have hkeep : ¬(decide (now - it.CachedAt ≤ cacheMaxAge) = true) := by
        simpa using not_le.mpr hstale
      rw [List.foldr_cons, if_pos hstale, ih hnodup' (le_trans hmono hlen),
        List.filter_cons, if_neg hkeep]
    · have hkeep : decide (now - it.CachedAt ≤ cacheMaxAge) = true := by
        simpa using not_lt.mp hstale
      have hcnt : ((it :: rest).filter (fun x => now - x.CachedAt ≤ cacheMaxAge)).length =
          (rest.filter (fun x => now - x.CachedAt ≤ cacheMaxAge)).length + 1 := by
        rw [List.filter_cons, if_pos hkeep, List.length_cons]
      have hfind : ((rest.filter (fun x => now - x.CachedAt ≤ cacheMaxAge)).map
          (fun x => (x.Path, recordToResult x))).find? (fun q => q.1 == it.Path) = none := by
        rw [List.find?_eq_none]
        intro q hq
        obtain ⟨x, hx, rfl⟩ := List.mem_map.mp hq
        have hxr : x ∈ rest := List.mem_of_mem_filter hx
        intro hbeq
        exact hpath (by
          have hxp : x.Path = it.Path := by simpa using hbeq
          exact hxp ▸ List.mem_map_of_mem serializedEntry.Path hxr)
      have hlt : ((rest.filter (fun x => now - x.CachedAt ≤ cacheMaxAge)).map
          (fun x => (x.Path, recordToResult x))).length < cap := by
        rw [List.length_map]
        omega
      rw [List.foldr_cons, if_neg hstale, ih hnodup' (le_trans hmono hlen),
        lruPut_new _ _ _ hfind hlt, List.filter_cons, if_pos hkeep, List.map_cons]

/-- C9 (amended): on load, a version mismatch discards the whole file; a
missing or malformed file is discarded silently with a nil error; an
existing-but-unreadable file leaves the cache untouched but returns the
open error (the sole caller ignores it); parsed records older than 24
hours are dropped; and the kept records are inserted oldest-first so the
most recently used record at save time ends at the most-recently-used
position. -/
theorem load_semantics :
    (∀ (c : lruCache) sc now, sc.Version ≠ cacheVersion →
      c.LoadFromDisk (.ok sc) now = (c, none)) ∧
    (∀ (c : lruCache) now, c.LoadFromDisk .missing now = (c, none)) ∧
    (∀ (c : lruCache) now, c.LoadFromDisk .malformed now = (c, none)) ∧
    (∀ (c : lruCache) now, c.LoadFromDisk .openError now = (c, some ())) ∧
    (∀ sc now cap, sc.Version = cacheVersion →
      (sc.Items.map serializedEntry.Path).Nodup →
      (sc.Items.filter (fun it => now - it.CachedAt ≤ cacheMaxAge)).length ≤ cap →
      ((newLRUCache cap).LoadFromDisk (.ok sc) now).1
        = { maxEntries := cap,
            items := (sc.Items.filter (fun it => now - it.CachedAt ≤ cacheMaxAge)).map
              (fun it => (it.Path, recordToResult it)) }) := by
  refine ⟨fun c sc now h => by simp [lruCache.LoadFromDisk, h],
          fun c now => rfl, fun c now => rfl, fun c now => rfl,
          fun sc now cap hv hnodup hlen => ?_⟩
  have hvne : ¬(sc.Version ≠ cacheVersion) := fun hn => hn hv
  simp only [lruCache.LoadFromDisk]
  rw [if_neg hvne]
  show sc.Items.reverse.foldl _ (newLRUCache cap) = _
  rw [List.foldl_reverse]
  exact load_fold_eq now cap sc.Items hnodup hlen

/-- Witness records for C9: one fresh and one stale record. -/
def scW : serializedCache :=
  { Version := 1,
    Items := [{ Path := "/fresh", Entries := [], TotalSize := 0, TotalFiles := 1,
                TotalDirs := 0, DirModTime := 0, CachedAt := 90 },
              { Path := "/stale", Entries := [], TotalSize := 0, TotalFiles := 2,
                TotalDirs := 0, DirModTime := 0, CachedAt := 0 }] }

/-- Witness for C9: loading `scW` at a time when `/stale` is over the
age cutoff keeps only `/fresh`, at the most-recently-used position. -/
theorem load_semantics_witness :
    (((newLRUCache 100).LoadFromDisk (.ok scW) (cacheMaxAge + 50)).1).items.map Prod.fst
      = ["/fresh"] := by
  have h := load_semantics.2.2.2.2 scW (cacheMaxAge + 50) 100 rfl (by decide) (by decide)
  rw [h]
  decide

/-! ### C1, C2, C3: scan aggregates -/

theorem scanDirEntries_length (cs : List FSTree) :
    (scanDirEntries cs).length = cs.countP isDirChild := by
  induction cs with
  | nil => rfl
  | cons c rest ih =>
    cases c <;> simp [scanDirEntries, isDirChild, List.countP_cons, ih]

theorem scanFileEntries_length (cs : List FSTree) :
    (scanFileEntries cs).length = cs.countP (fun c => !isDirChild c) := by
  induction cs with
  | nil => rfl
  | cons c rest ih =>
    cases c <;> simp [scanFileEntries, isDirChild, List.countP_cons, ih]

theorem applyPercentages_length (t : Int) (l : List FileEntry) :
    (applyPercentages t l).length = l.length := by
  unfold applyPercentages
  split <;> simp

/-- C1: a successful scan of a root with F immediate files and D
immediate subdirectories (symlinks resolving to directories count as
directories, every other child as a file) reports totalFiles F,
totalDirs D and exactly F + D entries. -/
theorem scan_counts (root : ScanRoot) (st : FileInfo) (cs : List FSTree)
    (hstat : root.rootStat = some st) (hlist : root.rootListing = some cs) :
    ∃ r, scanDirectory root = .ok r ∧
      r.totalFiles = cs.countP (fun c => !isDirChild c) ∧
      r.totalDirs = cs.countP isDirChild ∧
      r.entries.length = cs.countP (fun c => !isDirChild c) + cs.countP isDirChild := by
  simp only [scanDirectory, hstat, hlist]
  refine ⟨_, rfl, scanFileEntries_length cs, scanDirEntries_length cs, ?_⟩
  rw [(SortBySize_perm _).length_eq, applyPercentages_length, List.length_append,
    scanDirEntries_length, scanFileEntries_length]
  omega

/-- Witness root for C1: two files (one via a symlink not resolving to
a directory) and two directories (one via a symlink resolving to a
directory). -/
def w1root : ScanRoot :=
  ⟨"/w1", some ⟨0, 1⟩,
   some [.file "a" (some ⟨5, 0⟩), .dir "d" none (some []),
         .symlinkDir "s" none none, .symlinkOther "b" none]⟩

/-- Witness for C1: the counts at the concrete root `w1root`. -/
theorem scan_counts_witness :
    ∃ r, scanDirectory w1root = .ok r ∧ r.totalFiles = 2 ∧ r.totalDirs = 2 ∧
      r.entries.length = 4 := by
  obtain ⟨r, h1, h2, h3, h4⟩ := scan_counts w1root ⟨0, 1⟩ _ rfl rfl
  exact ⟨r, h1, by rw [h2]; decide, by rw [h3]; decide, by rw [h4]; decide⟩

theorem sumSizes_append (a b : List FileEntry) :
    sumSizes (a ++ b) = sumSizes a + sumSizes b := by
  simp [sumSizes]

theorem sumSizes_perm {a b : List FileEntry} (h : a.Perm b) :
    sumSizes a = sumSizes b :=
  (h.map FileEntry.size).sum_eq

theorem sumSizes_applyPercentages (t : Int) (l : List FileEntry) :
    sumSizes (applyPercentages t l) = sumSizes l := by
  unfold applyPercentages
  split
  · simp only [sumSizes, List.map_map]
    rfl
  · rfl

theorem scanDirEntries_percentage (cs : List FSTree) :
    ∀ e ∈ scanDirEntries cs, e.percentage = 0 := by
  induction cs with
  | nil => simp [scanDirEntries]
  | cons c rest ih =>
    cases c with
    | file n i => simpa [scanDirEntries] using ih
    | symlinkOther n i => simpa [scanDirEntries] using ih
    | dir n i l =>
      intro e he
      rcases List.mem_cons.mp he with rfl | hm
      · rfl
      · exact ih e hm
    | symlinkDir n i l =>
      intro e he
      rcases List.mem_cons.mp he with rfl | hm
      · rfl
      · exact ih e hm

theorem scanFileEntries_percentage (cs : List FSTree) :
    ∀ e ∈ scanFileEntries cs, e.percentage = 0 := by
  induction cs with
  | nil => simp [scanFileEntries]
  | cons c rest ih =>
    cases c with
    | dir n i l => simpa [scanFileEntries] using ih
    | symlinkDir n i l => simpa [scanFileEntries] using ih
    | file n i =>
      intro e he
      rcases List.mem_cons.mp he with rfl | hm
      · rfl
      · exact ih e hm
    | symlinkOther n i =>
      intro e he
      rcases List.mem_cons.mp he with rfl | hm
      · rfl
      · exact ih e hm

/-- C2: for every scan result, the sizes of the entries sum to
totalSize; with positive totalSize each entry's percentage is exactly
100 * size / totalSize (as exact rationals, the float ideal); with zero
totalSize every percentage is zero. -/
theorem scan_size_invariants (root : ScanRoot) (r : scanResultMsg)
    (h : scanDirectory root = .ok r) :
    sumSizes r.entries = r.totalSize ∧
    (0 < r.totalSize → ∀ e ∈ r.entries,
      e.percentage = 100 * (e.size : ℚ) / (r.totalSize : ℚ)) ∧
    (r.totalSize = 0 → ∀ e ∈ r.entries, e.percentage = 0) := by
  rcases hst : root.rootStat with _ | st
  · simp [scanDirectory, hst] at h
  rcases hls : root.rootListing with _ | cs
  · simp [scanDirectory, hst, hls] at h
  simp only [scanDirectory, hst, hls, ScanOutcome.ok.injEq] at h
  subst h
  refine ⟨?_, ?_, ?_⟩
  · rw [sumSizes_perm (SortBySize_perm _), sumSizes_applyPercentages, sumSizes_append]
  · intro hpos e he
    have he1 : e ∈ applyPercentages (sumSizes (scanDirEntries cs) + sumSizes (scanFileEntries cs))
        (scanDirEntries cs ++ scanFileEntries cs) := (SortBySize_perm _).mem_iff.mp he
    rw [applyPercentages, if_pos hpos] at he1
    obtain ⟨x, _, rfl⟩ := List.mem_map.mp he1
    show (x.size : ℚ) / _ * 100 = 100 * (x.size : ℚ) / _
    rw [div_mul_eq_mul_div, mul_comm]
  · intro h0 e he
    have h0' : sumSizes (scanDirEntries cs) + sumSizes (scanFileEntries cs) = 0 := h0
    have he1 : e ∈ applyPercentages (sumSizes (scanDirEntries cs) + sumSizes (scanFileEntries cs))
        (scanDirEntries cs ++ scanFileEntries cs) := (SortBySize_perm _).mem_iff.mp he
    rw [applyPercentages, if_neg (by rw [h0']; exact lt_irrefl 0)] at he1
    rcases List.mem_append.mp he1 with hm | hm
    · exact scanDirEntries_percentage cs e hm
    · exact scanFileEntries_percentage cs e hm

/-- Witness for C2 at the concrete root `w1root` (total size 5). -/
theorem scan_size_invariants_witness :
    ∃ r, scanDirectory w1root = .ok r ∧ sumSizes r.entries = r.totalSize ∧
      (0 < r.totalSize → ∀ e ∈ r.entries,
        e.percentage = 100 * (e.size : ℚ) / (r.totalSize : ℚ)) := by
  rcases hscan : scanDirectory w1root with _ | r
  · exact absurd hscan (by decide)
  · obtain ⟨hsum, hpct, _⟩ := scan_size_invariants w1root r hscan
    exact ⟨r, rfl, hsum, hpct⟩

mutual
/-- Under full observability, the code's fused aggregate over one child
equals the three straightforward recursive counts. -/
theorem dirSizeChild_nested : ∀ (c : FSTree), allOkChild c = true →
    dirSizeChild c = (nestedSizeChild c, nestedFileCountChild c, nestedDirCountChild c)
  | .file n i, _ => by
    simp [dirSizeChild, nestedSizeChild, nestedFileCountChild, nestedDirCountChild]
  | .symlinkDir n i l, _ => by
    simp [dirSizeChild, nestedSizeChild, nestedFileCountChild, nestedDirCountChild]
  | .symlinkOther n i, _ => by
    simp [dirSizeChild, nestedSizeChild, nestedFileCountChild, nestedDirCountChild]
  | .dir n i none, h => by simp [allOkChild] at h
  | .dir n i (some cs), h => by
    have hr := dirSizeChildren_nested cs (by simpa [allOkChild] using h)
    simp [dirSizeChild, dirSizeListing, hr, nestedSizeChild, nestedFileCountChild,
      nestedDirCountChild]

/-- Under full observability, the code's fused aggregate over a listing
equals the three straightforward recursive counts. -/
theorem dirSizeChildren_nested : ∀ (cs : List FSTree), allOkList cs = true →
    dirSizeChildren cs = (nestedSizeSum cs, nestedFileCount cs, nestedDirCount cs)
  | [], _ => rfl
  | c :: rest, h => by
    have hh : allOkChild c = true ∧ allOkList rest = true := by
      simpa [allOkList] using h
    have h1 := dirSizeChild_nested c hh.1
    have h2 := dirSizeChildren_nested rest hh.2
    simp [dirSizeChildren, h1, h2, nestedSizeSum, nestedFileCount, nestedDirCount]
end

theorem dirEntry_mem_scanDirEntries (cs : List FSTree) (n : String)
    (i : Option FileInfo) (l : Option (List FSTree)) (h : FSTree.dir n i l ∈ cs) :
    applyDirSize (mkDirEntry n false i) l ∈ scanDirEntries cs := by
  induction cs with
  | nil => simp at h
  | cons c rest ih =>
    rcases List.mem_cons.mp h with heq | hmem
    · rw [← heq]
      simp [scanDirEntries]
    · have hr := ih hmem
      cases c with
      | file n2 i2 => simpa [scanDirEntries] using hr
      | symlinkOther n2 i2 => simpa [scanDirEntries] using hr
      | dir n2 i2 l2 =>
        simp only [scanDirEntries]
        exact List.mem_cons_of_mem _ hr
      | symlinkDir n2 i2 l2 =>
        simp only [scanDirEntries]
        exact List.mem_cons_of_mem _ hr

theorem mem_applyPercentages_fields (t : Int) (l : List FileEntry) (x : FileEntry)
    (hx : x ∈ l) : ∃ e ∈ applyPercentages t l, e.name = x.name ∧ e.size = x.size ∧
      e.childFiles = x.childFiles ∧ e.childDirs = x.childDirs := by
  unfold applyPercentages
  split
  · exact ⟨_, List.mem_map_of_mem _ hx, rfl, rfl, rfl, rfl⟩
  · exact ⟨x, hx, rfl, rfl, rfl, rfl⟩

/-- C3: a successful scan of a root containing a fully observable
subdirectory presents that subdirectory with childFileCount equal to the
number of files nested anywhere beneath it, size equal to the sum of
all nested file sizes, and a descendant directory count that excludes
the subdirectory itself. -/
theorem scan_subdir_aggregates (root : ScanRoot) (st : FileInfo) (cs : List FSTree)
    (n : String) (i : Option FileInfo) (sub : List FSTree)
    (hstat : root.rootStat = some st) (hlist : root.rootListing = some cs)
    (hmem : FSTree.dir n i (some sub) ∈ cs) (hok : allOkList sub = true) :
    ∃ r, scanDirectory root = .ok r ∧ ∃ e ∈ r.entries,
      e.name = n ∧ e.childFiles = nestedFileCount sub ∧
      e.size = nestedSizeSum sub ∧ e.childDirs = nestedDirCount sub := by
  simp only [scanDirectory, hstat, hlist]
  refine ⟨_, rfl, ?_⟩
  have hrec := dirSizeChildren_nested sub hok
  have hd := dirEntry_mem_scanDirEntries cs n i (some sub) hmem
  have hx : applyDirSize (mkDirEntry n false i) (some sub)
      ∈ scanDirEntries cs ++ scanFileEntries cs := List.mem_append_left _ hd
  obtain ⟨e, he, hn, hs, hf, hdd⟩ := mem_applyPercentages_fields
    (sumSizes (scanDirEntries cs) + sumSizes (scanFileEntries cs)) _ _ hx
  refine ⟨e, (SortBySize_perm _).mem_iff.mpr he, ?_, ?_, ?_, ?_⟩
  · exact hn
  · rw [hf]
    show (dirSizeRecursive (some sub)).2.1 = _
    rw [dirSizeRecursive, dirSizeListing, hrec]
  · rw [hs]
    show (dirSizeRecursive (some sub)).1 = _
    rw [dirSizeRecursive, dirSizeListing, hrec]
  · rw [hdd]
    show (dirSizeRecursive (some sub)).2.2 = _
    rw [dirSizeRecursive, dirSizeListing, hrec]

/-- Witness root for C3: subdirectory `sub` with one direct file and one
nested directory holding another file (2 nested files, total size 10,
1 descendant directory). -/
def w3root : ScanRoot :=
  ⟨"/w3", some ⟨0, 1⟩,
   some [.dir "sub" (some ⟨0, 2⟩)
          (some [.file "x" (some ⟨7, 0⟩),
                 .dir "in" (some ⟨0, 0⟩) (some [.file "y" (some ⟨3, 0⟩)])]),
         .file "top" (some ⟨1, 0⟩)]⟩

/-- Witness for C3: the subdirectory aggregates at the concrete root
`w3root`. -/
theorem scan_subdir_aggregates_witness :
    ∃ r, scanDirectory w3root = .ok r ∧ ∃ e ∈ r.entries, e.name = "sub" ∧
      e.childFiles = 2 ∧ e.size = 10 ∧ e.childDirs = 1 := by
  obtain ⟨r, h1, e, he, hn, hf, hs, hd⟩ := scan_subdir_aggregates w3root ⟨0, 1⟩ _ "sub"
    (some ⟨0, 2⟩) _ rfl rfl (List.mem_cons_self _ _) (by decide)
  exact ⟨r, h1, e, he, hn, by rw [hf]; decide, by rw [hs]; decide, by rw [hd]; decide⟩

end Dirgo
